import Mathlib

/-!
MoleCal: the stoichiometry engine and form controller of `src/src/App.jsx`.

A shallow embedding of the `results` computation, of the controller operations
(`handleInputChange`, `handleSelectFromDb`, `addCompound`, `resetAll`, row selection), of
the registry operation `handleAdd`, of the row mapping of `exportToExcel`, and of the
`results` computation of the G1 variant (`src/G1/App.jsx`).

Modelling conventions.

* A record property is a `Field`: `none` is an absent property (JavaScript
  `undefined`), `some s` is a string, which is what a form input delivers.
* JavaScript numbers are modelled as exact rationals: the rounding, overflow and
  underflow of IEEE doubles are not represented.  `parseFloat` yields `none` for the
  results that `Number.isFinite` rejects (`NaN`, `Infinity`, `-Infinity`).
* `toFixed` follows the ECMAScript definition for magnitudes below `10 ^ 21`.
* An operation that throws a `TypeError` in JavaScript returns `none`.
-/

namespace MoleCal

/-! ## JavaScript primitives used by the program -/

/-- A record property: absent (`none`) or a string. -/
abbrev Field := Option String

/-- JavaScript truthiness of a field: an absent property and the empty string are falsy. -/
def truthy : Field → Bool
  | none => false
  | some s => decide (s ≠ "")

/-- The characters removed by `parseFloat` before it reads a number
(ECMAScript `WhiteSpace` and `LineTerminator`). -/
def isStrWhiteSpaceChar (c : Char) : Bool :=
  let n := c.toNat
  n = 0x09 || n = 0x0A || n = 0x0B || n = 0x0C || n = 0x0D || n = 0x20 || n = 0xA0 ||
  n = 0x1680 || (0x2000 ≤ n && n ≤ 0x200A) || n = 0x2028 || n = 0x2029 || n = 0x202F ||
  n = 0x205F || n = 0x3000 || n = 0xFEFF

/-- The value of a run of decimal digits. -/
def digitsToNat (ds : List Char) : Nat :=
  ds.foldl (fun acc c => 10 * acc + (c.toNat - 48)) 0

/-- The exponent read from an `ExponentPart` (`e`/`E`, optional sign, digits) at the head of
the input.  When no well-formed exponent part is present nothing is consumed, which is
exponent `0`. -/
def exponentPart : List Char → Int
  | [] => 0
  | c :: rest =>
    if c = 'e' ∨ c = 'E' then
      match rest with
      | '+' :: ds => (digitsToNat (ds.takeWhile Char.isDigit) : Int)
      | '-' :: ds => -(digitsToNat (ds.takeWhile Char.isDigit) : Int)
      | ds => (digitsToNat (ds.takeWhile Char.isDigit) : Int)
    else 0

/-- Multiplication by a power of ten: `m * 10 ^ e`. -/
def scale10 (m : ℚ) (e : Int) : ℚ :=
  if 0 ≤ e then m * (10 : ℚ) ^ e.natAbs else m / (10 : ℚ) ^ e.natAbs

/-- The longest prefix that is a `StrUnsignedDecimalLiteral`, evaluated; `none` when there
is no such prefix (`NaN`) or the literal is `Infinity`. -/
def strUnsignedDecimalLiteral (cs : List Char) : Option ℚ :=
  match cs with
  | 'I' :: 'n' :: 'f' :: 'i' :: 'n' :: 'i' :: 't' :: 'y' :: _ => none
  | _ =>
    let ip := cs.takeWhile Char.isDigit
    let r1 := cs.dropWhile Char.isDigit
    match r1 with
    | '.' :: t =>
      let fp := t.takeWhile Char.isDigit
      let r2 := t.dropWhile Char.isDigit
      if ip = [] ∧ fp = [] then none
      else some (scale10 ((digitsToNat (ip ++ fp) : ℚ) / (10 : ℚ) ^ fp.length) (exponentPart r2))
    | _ =>
      if ip = [] then none else some (scale10 (digitsToNat ip : ℚ) (exponentPart r1))

/-- JavaScript `parseFloat` on a field.  An absent property is converted to the string
`undefined`, which has no numeric prefix. -/
def parseFloat : Field → Option ℚ
  | none => none
  | some s =>
    match s.toList.dropWhile isStrWhiteSpaceChar with
    | '+' :: t => strUnsignedDecimalLiteral t
    | '-' :: t => (strUnsignedDecimalLiteral t).map (fun q => -q)
    | t => strUnsignedDecimalLiteral t

/-- Left padding with `0` up to the given width. -/
def padZeros (width : Nat) (s : String) : String :=
  String.mk (List.replicate (width - s.length) '0') ++ s

/-- JavaScript `Number.prototype.toFixed` on a non-negative value: the integer `n`
nearest to `x * 10 ^ digits` (the larger one on a tie), written with a decimal point before
its last `digits` digits. -/
def toFixedNonneg (digits : Nat) (x : ℚ) : String :=
  let n := (Rat.floor (x * (10 : ℚ) ^ digits + 1 / 2)).toNat
  if digits = 0 then toString n
  else toString (n / 10 ^ digits) ++ "." ++ padZeros digits (toString (n % 10 ^ digits))

/-- JavaScript `Number.prototype.toFixed`. -/
def toFixed (digits : Nat) (x : ℚ) : String :=
  if x < 0 then "-" ++ toFixedNonneg digits (-x) else toFixedNonneg digits x

/-! ## The data model -/

/-- One row of the form.  Rows created by `addCompound` have no `unit` property and carry
a `moles` property; the limiting-reactant row has `unit` and no `moles`. -/
structure Compound where
  name : Field
  mw : Field
  weight : Field
  unit : Field
  eq : Field
  density : Field
  moles : Field
  deriving DecidableEq, Repr

/-- One row of `results`: the input row spread, with `moles` overwritten and the two
computed display strings added. -/
structure Result where
  name : Field
  mw : Field
  weight : Field
  unit : Field
  eq : Field
  density : Field
  moles : String
  calculatedWeight : String
  calculatedVolume : String
  deriving DecidableEq, Repr

/-! ## The engine: `results` -/

/-- The `parseNumber` helper of `App`: `parseFloat`, with non-finite results replaced by 0. -/
def parseNumber (value : Field) : ℚ :=
  match parseFloat value with
  | some n => n
  | none => 0

/-- `limitingWeightInGrams`: the limiting reactant's weight converted to grams. -/
def limitingWeightInGrams (limitingReactant : Compound) : ℚ :=
  if limitingReactant.unit = some "mg" then parseNumber limitingReactant.weight / 1000
  else parseNumber limitingReactant.weight

/-- `limitingMoles`. -/
def limitingMoles (limitingReactant : Compound) : ℚ :=
  if parseNumber limitingReactant.mw > 0 then
    limitingWeightInGrams limitingReactant / parseNumber limitingReactant.mw
  else 0

/-- `moles` of a row, as computed in the body of the `map` callback. -/
def rowMoles (limitingReactant c : Compound) : ℚ :=
  if limitingMoles limitingReactant > 0 ∧ parseNumber c.eq > 0 ∧
      parseNumber limitingReactant.eq > 0 then
    (limitingMoles limitingReactant * parseNumber c.eq) / parseNumber limitingReactant.eq
  else 0

/-- `calculatedWeightInGrams` of a row. -/
def calculatedWeightInGrams (limitingReactant c : Compound) : ℚ :=
  rowMoles limitingReactant c * parseNumber c.mw

/-- `calculatedWeight` of a row: the weight in the limiting reactant's unit. -/
def calculatedWeight (limitingReactant c : Compound) : ℚ :=
  if limitingReactant.unit = some "mg" then calculatedWeightInGrams limitingReactant c * 1000
  else calculatedWeightInGrams limitingReactant c

/-- `calculatedVolume` of a row: `none` stands for the initial empty string, which is
kept when the density is not positive. -/
def calculatedVolume (limitingReactant c : Compound) : Option ℚ :=
  if parseNumber c.density > 0 then
    some (calculatedWeightInGrams limitingReactant c / parseNumber c.density)
  else none

/-- `displayMoles`. -/
def displayMoles (limitingReactant c : Compound) : String :=
  if rowMoles limitingReactant c > 0 then toFixed 6 (rowMoles limitingReactant c) else ""

/-- `displayCalculatedWeight`. -/
def displayCalculatedWeight (limitingReactant c : Compound) : String :=
  if calculatedWeight limitingReactant c > 0 then toFixed 4 (calculatedWeight limitingReactant c)
  else ""

/-- `displayCalculatedVolume`.  The empty string compares as `0`, so it is not `> 0`. -/
def displayCalculatedVolume (limitingReactant c : Compound) : String :=
  match calculatedVolume limitingReactant c with
  | some v => if v > 0 then toFixed 4 v else ""
  | none => ""

/-- The row returned by the first branch of `results` (limiting reactant incomplete). -/
def blankResult (c : Compound) : Result :=
  { name := c.name, mw := c.mw, weight := c.weight, unit := c.unit, eq := c.eq,
    density := c.density, moles := "", calculatedWeight := "", calculatedVolume := "" }

/-- The row returned by the `map` callback of the second branch of `results`. -/
def computedResult (limitingReactant c : Compound) : Result :=
  { name := c.name, mw := c.mw, weight := c.weight, unit := c.unit, eq := c.eq,
    density := c.density,
    moles := displayMoles limitingReactant c,
    calculatedWeight := displayCalculatedWeight limitingReactant c,
    calculatedVolume := displayCalculatedVolume limitingReactant c }

/-- The `results` memo of `App`. -/
def results (compounds : List Compound) : List Result :=
  match compounds with
  | [] => []
  | limitingReactant :: _ =>
    if !truthy limitingReactant.mw || !truthy limitingReactant.weight then
      compounds.map blankResult
    else
      compounds.map (computedResult limitingReactant)

/-! ## The form controller -/

/-- The state held by `App`: the three `useState` cells. -/
structure AppState where
  compounds : List Compound
  showTable : Bool
  editingIndex : Nat
  deriving DecidableEq, Repr

/-- The record literal of the initial state and of `resetAll`. -/
def defaultLimitingReactant : Compound :=
  { name := some "Limiting Reactant", mw := some "", weight := some "", unit := some "mg",
    eq := some "1.0", density := some "", moles := none }

/-- The record literal appended by `addCompound`: it has no `unit` property. -/
def emptyCompound : Compound :=
  { name := some "", mw := some "", eq := some "", density := some "", weight := some "",
    moles := some "", unit := none }

/-- The initial state of `App`. -/
def initialState : AppState :=
  { compounds := [defaultLimitingReactant], showTable := false, editingIndex := 0 }

/-- The property names of a row. -/
inductive FieldName where
  | name | mw | weight | unit | eq | density | moles
  deriving DecidableEq, Repr

/-- The assignment `c[field] = value`. -/
def Compound.setField (c : Compound) (field : FieldName) (value : String) : Compound :=
  match field with
  | .name => { c with name := some value }
  | .mw => { c with mw := some value }
  | .weight => { c with weight := some value }
  | .unit => { c with unit := some value }
  | .eq => { c with eq := some value }
  | .density => { c with density := some value }
  | .moles => { c with moles := some value }

/-- `handleInputChange(index, field, value)`.  Assigning a property of a missing row
throws, which is `none`. -/
def handleInputChange (s : AppState) (index : Nat) (field : FieldName) (value : String) :
    Option AppState :=
  match s.compounds[index]? with
  | none => none
  | some c => some { s with compounds := s.compounds.set index (c.setField field value) }

/-- An entry of the saved-compounds list, as handed to `onSelect`. -/
structure DbCompound where
  name : Field
  mw : Field
  density : Field
  deriving DecidableEq, Repr

/-- `handleSelectFromDb(compoundData)`: overwrites three properties of the row at
`editingIndex`; throws (`none`) when that row is missing. -/
def handleSelectFromDb (s : AppState) (compoundData : DbCompound) : Option AppState :=
  match s.compounds[s.editingIndex]? with
  | none => none
  | some c =>
    let updated : Compound :=
      { c with name := compoundData.name, mw := compoundData.mw,
               density := compoundData.density }
    some { s with compounds := s.compounds.set s.editingIndex updated }

/-- The text of the warning raised by `addCompound`. -/
def addCompoundAlert : String :=
  "Please enter the weight and molecular weight for the Limiting Reactant first."

/-- `addCompound()`: the next state together with the alert raised, if any.  Reading
`compounds[0].mw` on an empty list throws, which is `none`. -/
def addCompound (s : AppState) : Option (AppState × Option String) :=
  match s.compounds with
  | [] => none
  | limitingReactant :: _ =>
    if !truthy limitingReactant.mw || !truthy limitingReactant.weight then
      some (s, some addCompoundAlert)
    else
      some ({ compounds := s.compounds ++ [emptyCompound],
              editingIndex := s.compounds.length,
              showTable := false }, none)

/-- `resetAll()`. -/
def resetAll (_s : AppState) : AppState :=
  { compounds := [defaultLimitingReactant], editingIndex := 0, showTable := false }

/-- The controller operations considered for reachability. -/
inductive Op where
  | inputChange (index : Nat) (field : FieldName) (value : String)
  | selectFromDb (compoundData : DbCompound)
  | add
  | reset
  deriving DecidableEq, Repr

/-- One controller operation applied to a state; `none` when the operation throws. -/
def step (s : AppState) : Op → Option AppState
  | .inputChange index field value => handleInputChange s index field value
  | .selectFromDb compoundData => handleSelectFromDb s compoundData
  | .add => (addCompound s).map Prod.fst
  | .reset => some (resetAll s)

/-- The states reachable from the initial state by operations that do not throw. -/
inductive Reachable : AppState → Prop where
  | init : Reachable initialState
  | next {s t : AppState} (op : Op) : Reachable s → step s op = some t → Reachable t

/-! ## The specification's formula, for comparison -/

/-- A complete limiting reactant: 500 mg of a compound of molecular weight 100. -/
def lrExample : Compound :=
  { name := some "Limiting Reactant", mw := some "100", weight := some "500",
    unit := some "mg", eq := some "1.0", density := some "", moles := none }

/-- A row created by `addCompound` and then filled in with `mw = 50`, `eq = 2`. -/
def rowB : Compound :=
  { name := some "", mw := some "50", weight := some "",
    unit := none, eq := some "2", density := some "", moles := some "" }

/-- The default (incomplete) limiting reactant with a density filled in. -/
def lrBlankDense : Compound :=
  { name := some "Limiting Reactant", mw := some "", weight := some "",
    unit := some "mg", eq := some "1.0", density := some "1.2", moles := none }

/-- A sequence of controller operations run from a state; `none` as soon as one throws. -/
def run (s : AppState) : List Op → Option AppState
  | [] => some s
  | op :: ops => (step s op).bind (fun t => run t ops)

/-- The operations that enter the scenario of the limiting reactant and compound B. -/
def scenarioOps : List Op :=
  [.inputChange 0 .mw "100", .inputChange 0 .weight "500", .add,
   .inputChange 1 .mw "50", .inputChange 1 .eq "2"]

/-- A state whose limiting reactant is complete, with the results table shown. -/
def readyState : AppState :=
  { compounds := [lrExample], showTable := true, editingIndex := 0 }

/-- The controller state reached by `scenarioOps`. -/
def scenarioState : AppState :=
  { compounds := [lrExample, rowB], showTable := false, editingIndex := 1 }

/-! ## The compound registry (`CompoundDatabase`) -/

/-- The state held by `CompoundDatabase`: the saved list and the pending entry of the
form. -/
structure DbState where
  dbCompounds : List DbCompound
  newCompound : DbCompound
  deriving DecidableEq, Repr

/-- The record literal to which `handleAdd` resets the pending entry. -/
def blankDbCompound : DbCompound :=
  { name := some "", mw := some "", density := some "" }

/-- `handleAdd(e)` of `CompoundDatabase`. -/
def handleAdd (s : DbState) : DbState :=
  if truthy s.newCompound.name && (truthy s.newCompound.mw || truthy s.newCompound.density) then
    { dbCompounds := s.dbCompounds ++ [s.newCompound], newCompound := blankDbCompound }
  else s

/-- A saved entry used in the examples. -/
def ethanolEntry : DbCompound :=
  { name := some "Ethanol", mw := some "46.07", density := some "" }

/-- A registry that already holds `ethanolEntry`, with the same entry pending again. -/
def duplicateDbState : DbState :=
  { dbCompounds := [ethanolEntry], newCompound := ethanolEntry }

/-! ## The exporter: the row mapping of `exportToExcel` -/

/-- Interpolation of a property in a template literal: an absent property prints as
`undefined`. -/
def interpolate : Field → String
  | none => "undefined"
  | some s => s

/-- One object of `dataToExport`.  The keys `Volume (mL)` and `Density (g/mL)` are
present only when the corresponding option is `some`. -/
structure ExportRow where
  srNo : Nat
  name : Field
  weight : String
  volume : Option String
  molecularWeight : Field
  moles : String
  equivalent : Field
  density : Option String
  deriving DecidableEq, Repr

/-- The `Weight` cell of an exported row. -/
def exportWeight (r : Result) : String :=
  if r.calculatedWeight ≠ "" then r.calculatedWeight ++ " " ++ interpolate r.unit
  else if truthy r.weight then interpolate r.weight ++ " " ++ interpolate r.unit
  else ""

/-- The callback of `results.map` in `exportToExcel`. -/
def exportRow (i : Nat) (r : Result) : ExportRow :=
  { srNo := i + 1,
    name := r.name,
    weight := exportWeight r,
    volume := if r.calculatedVolume ≠ "" then some r.calculatedVolume else none,
    molecularWeight := r.mw,
    moles := r.moles,
    equivalent := r.eq,
    density := if truthy r.density then r.density else none }

/-- `dataToExport`. -/
def dataToExport (results : List Result) : List ExportRow :=
  results.mapIdx exportRow

/-! ## Row selection -/

/-- `setEditingIndex(i)`. -/
def setEditingIndex (s : AppState) (i : Nat) : AppState :=
  { s with editingIndex := i }

/-- The `onClick` handler of row `i`.  A row is rendered for every index of `compounds`
and for no other, so the handler exists only for `i < compounds.length`. -/
def rowOnClick (s : AppState) (i : Nat) : Option AppState :=
  if i < s.compounds.length then some (setEditingIndex s i) else none

/-- The user-interface events: a click on a rendered row, or a controller operation. -/
inductive UiOp where
  | selectRow (i : Nat)
  | control (op : Op)
  deriving DecidableEq, Repr

/-- One user-interface event applied to a state. -/
def uiStep (s : AppState) : UiOp → Option AppState
  | .selectRow i => rowOnClick s i
  | .control op => step s op

/-- The states reachable from the initial state by user-interface events. -/
inductive UiReachable : AppState → Prop where
  | init : UiReachable initialState
  | next {s t : AppState} (op : UiOp) : UiReachable s → uiStep s op = some t → UiReachable t

/-- A sequence of user-interface events run from a state. -/
def uiRun (s : AppState) : List UiOp → Option AppState
  | [] => some s
  | op :: ops => (uiStep s op).bind (fun t => uiRun t ops)

/-- The scenario operations followed by a click on row 0. -/
def selectionOps : List UiOp :=
  scenarioOps.map UiOp.control ++ [.selectRow 0]

/-- The state reached by `selectionOps`. -/
def selectionState : AppState :=
  { compounds := [lrExample, rowB], showTable := false, editingIndex := 0 }

/-! ## The G1 variant (`src/G1/App.jsx`) -/

namespace G1

/-- The state held by the G1 `App`: it has no `editingIndex`. -/
structure AppState where
  compounds : List Compound
  showTable : Bool
  deriving DecidableEq, Repr

/-- The initial state of the G1 `App`. -/
def initialState : AppState :=
  { compounds := [defaultLimitingReactant], showTable := false }

/-- `limitingWeightInGrams` of the G1 `results`. -/
def limitingWeightInGrams (limitingReactant : Compound) : ℚ :=
  if limitingReactant.unit = some "mg" then parseNumber limitingReactant.weight / 1000
  else parseNumber limitingReactant.weight

/-- `limitingMoles` of the G1 `results`. -/
def limitingMoles (limitingReactant : Compound) : ℚ :=
  if parseNumber limitingReactant.mw > 0 then
    limitingWeightInGrams limitingReactant / parseNumber limitingReactant.mw
  else 0

/-- `moles` of a row in G1: the limiting reactant's own `eq` is not used. -/
def rowMoles (limitingReactant c : Compound) : ℚ :=
  if limitingMoles limitingReactant > 0 ∧ parseNumber c.eq > 0 then
    limitingMoles limitingReactant * parseNumber c.eq
  else 0

/-- `calculatedWeightInGrams` of a row in G1. -/
def calculatedWeightInGrams (limitingReactant c : Compound) : ℚ :=
  rowMoles limitingReactant c * parseNumber c.mw

/-- `calculatedWeight` of a row in G1: the test is on the row's own `unit`. -/
def calculatedWeight (limitingReactant c : Compound) : ℚ :=
  if c.unit = some "mg" then calculatedWeightInGrams limitingReactant c * 1000
  else calculatedWeightInGrams limitingReactant c

/-- `calculatedVolume` of a row in G1; `none` stands for the initial empty string. -/
def calculatedVolume (limitingReactant c : Compound) : Option ℚ :=
  if parseNumber c.density > 0 then
    some (calculatedWeightInGrams limitingReactant c / parseNumber c.density)
  else none

/-- The row returned by the `map` callback of the G1 `results`. -/
def computedResult (limitingReactant c : Compound) : Result :=
  { name := c.name, mw := c.mw, weight := c.weight, unit := c.unit, eq := c.eq,
    density := c.density,
    moles :=
      if rowMoles limitingReactant c > 0 then toFixed 6 (rowMoles limitingReactant c) else "",
    calculatedWeight :=
      if calculatedWeight limitingReactant c > 0 then
        toFixed 2 (calculatedWeight limitingReactant c)
      else "",
    calculatedVolume :=
      match calculatedVolume limitingReactant c with
      | some v => if v > 0 then toFixed 2 v else ""
      | none => "" }

/-- The `results` memo of the G1 `App`. -/
def results (compounds : List Compound) : List Result :=
  match compounds with
  | [] => []
  | limitingReactant :: _ =>
    if !truthy limitingReactant.mw || !truthy limitingReactant.weight then
      compounds.map blankResult
    else
      compounds.map (computedResult limitingReactant)

/-- `handleInputChange(index, field, value)` of G1. -/
def handleInputChange (s : AppState) (index : Nat) (field : FieldName) (value : String) :
    Option AppState :=
  match s.compounds[index]? with
  | none => none
  | some c => some { s with compounds := s.compounds.set index (c.setField field value) }

/-- `addCompound()` of G1: the next state together with the alert raised, if any. -/
def addCompound (s : AppState) : Option (AppState × Option String) :=
  match s.compounds with
  | [] => none
  | limitingReactant :: _ =>
    if !truthy limitingReactant.mw || !truthy limitingReactant.weight then
      some (s, some addCompoundAlert)
    else
      some ({ compounds := s.compounds ++ [emptyCompound], showTable := false }, none)

/-- The G1 operations considered: field edits and `addCompound`. -/
inductive Op where
  | inputChange (index : Nat) (field : FieldName) (value : String)
  | add
  deriving DecidableEq, Repr

/-- One G1 operation applied to a state; `none` when the operation throws. -/
def step (s : AppState) : Op → Option AppState
  | .inputChange index field value => handleInputChange s index field value
  | .add => (addCompound s).map Prod.fst

/-- A sequence of G1 operations run from a state. -/
def run (s : AppState) : List Op → Option AppState
  | [] => some s
  | op :: ops => (step s op).bind (fun t => run t ops)

/-- The operations that enter the scenario of the limiting reactant and compound B. -/
def scenarioOps : List Op :=
  [.inputChange 0 .mw "100", .inputChange 0 .weight "500", .add,
   .inputChange 1 .mw "50", .inputChange 1 .eq "2"]

end G1

/-! ## Auxiliary facts about the primitives and the engine -/

theorem parseNumber_of_falsy (f : Field) (h : truthy f = false) : parseNumber f = 0 := by
  cases f with
  | none => rfl
  | some s =>
    have hs : s = "" := by simpa [truthy] using h
    subst hs
    with_unfolding_all rfl

theorem rowMoles_of_limitingMoles_eq_zero (lr c : Compound) (h : limitingMoles lr = 0) :
    rowMoles lr c = 0 := by
  simp [rowMoles, h]

theorem limitingMoles_of_blank (lr : Compound)
    (h : truthy lr.mw = false ∨ truthy lr.weight = false) : limitingMoles lr = 0 := by
  rcases h with h | h
  · simp [limitingMoles, parseNumber_of_falsy _ h]
  · simp [limitingMoles, limitingWeightInGrams, parseNumber_of_falsy _ h]

theorem limitingMoles_of_zero (lr : Compound)
    (h : parseNumber lr.mw = 0 ∨ parseNumber lr.weight = 0) : limitingMoles lr = 0 := by
  rcases h with h | h
  · simp [limitingMoles, h]
  · simp [limitingMoles, limitingWeightInGrams, h]

theorem computedResult_of_rowMoles_eq_zero (lr c : Compound) (h : rowMoles lr c = 0) :
    computedResult lr c = blankResult c := by
  have hg : calculatedWeightInGrams lr c = 0 := by simp [calculatedWeightInGrams, h]
  have hw : calculatedWeight lr c = 0 := by simp [calculatedWeight, hg]
  have hv : displayCalculatedVolume lr c = "" := by
    unfold displayCalculatedVolume calculatedVolume
    split_ifs <;> simp [hg]
  simp [computedResult, blankResult, displayMoles, displayCalculatedWeight, h, hw, hv]

/-- Both branches of `results` are the `map` of the second branch: when the limiting
reactant is incomplete the computed strings are all empty anyway. -/
theorem results_cons (lr : Compound) (rest : List Compound) :
    results (lr :: rest) = (lr :: rest).map (computedResult lr) := by
  simp only [results]
  split_ifs with hb
  · have hz : limitingMoles lr = 0 := by
      apply limitingMoles_of_blank
      simpa using hb
    apply List.map_congr_left
    intro c _
    exact (computedResult_of_rowMoles_eq_zero lr c
      (rowMoles_of_limitingMoles_eq_zero lr c hz)).symm
  · rfl

theorem setField_unit_ne_none (c : Compound) (field : FieldName) (value : String)
    (h : c.unit ≠ none) : (c.setField field value).unit ≠ none := by
  cases field <;> simp [Compound.setField, h]

theorem handleInputChange_eq_some (s t : AppState) (index : Nat) (field : FieldName)
    (value : String) (h : handleInputChange s index field value = some t) :
    ∃ c, s.compounds[index]? = some c ∧
      t = { s with compounds := s.compounds.set index (c.setField field value) } := by
  unfold handleInputChange at h
  cases hc : s.compounds[index]? with
  | none => simp [hc] at h
  | some c =>
    simp only [hc, Option.some.injEq] at h
    exact ⟨c, rfl, h.symm⟩

theorem handleSelectFromDb_eq_some (s t : AppState) (d : DbCompound)
    (h : handleSelectFromDb s d = some t) :
    ∃ c, s.compounds[s.editingIndex]? = some c ∧
      t = { s with
            compounds := s.compounds.set s.editingIndex
              { c with name := d.name, mw := d.mw, density := d.density } } := by
  unfold handleSelectFromDb at h
  cases hc : s.compounds[s.editingIndex]? with
  | none => simp [hc] at h
  | some c =>
    simp only [hc, Option.some.injEq] at h
    exact ⟨c, rfl, h.symm⟩

theorem addCompound_cons (s : AppState) (lr : Compound) (rest : List Compound)
    (hs : s.compounds = lr :: rest) :
    addCompound s =
      if !truthy lr.mw || !truthy lr.weight then some (s, some addCompoundAlert)
      else some ({ compounds := s.compounds ++ [emptyCompound],
                   editingIndex := s.compounds.length, showTable := false }, none) := by
  unfold addCompound
  rw [hs]

/-- The head of the list: non-empty, and the first row carries the unit property. -/
theorem step_preserves_head (s t : AppState) (op : Op)
    (hinv : ∃ lr rest, s.compounds = lr :: rest ∧ lr.unit ≠ none)
    (hstep : step s op = some t) :
    ∃ lr rest, t.compounds = lr :: rest ∧ lr.unit ≠ none := by
  obtain ⟨lr, rest, hs, hu⟩ := hinv
  cases op with
  | inputChange index field value =>
    obtain ⟨c, hc, rfl⟩ := handleInputChange_eq_some s t index field value hstep
    rw [hs] at hc
    cases index with
    | zero =>
      have hcl : lr = c := by simpa using hc
      subst hcl
      exact ⟨lr.setField field value, rest, by simp [hs], setField_unit_ne_none _ _ _ hu⟩
    | succ k => exact ⟨lr, rest.set k (c.setField field value), by simp [hs], hu⟩
  | selectFromDb d =>
    obtain ⟨c, hc, rfl⟩ := handleSelectFromDb_eq_some s t d hstep
    rw [hs] at hc
    cases he : s.editingIndex with
    | zero =>
      rw [he] at hc
      have hcl : lr = c := by simpa using hc
      subst hcl
      exact ⟨{ lr with name := d.name, mw := d.mw, density := d.density }, rest,
        by simp [hs, he], hu⟩
    | succ k =>
      exact ⟨lr, rest.set k { c with name := d.name, mw := d.mw, density := d.density },
        by simp [hs, he], hu⟩
  | add =>
    simp only [step, addCompound_cons s lr rest hs] at hstep
    split_ifs at hstep
    · have ht : t = s := by simpa using hstep.symm
      subst ht
      exact ⟨lr, rest, hs, hu⟩
    · have ht : t =
          { compounds := s.compounds ++ [emptyCompound],
            editingIndex := s.compounds.length,
            showTable := false } := by
        simpa using hstep.symm
      subst ht
      exact ⟨lr, rest ++ [emptyCompound], by simp [hs], hu⟩
  | reset =>
    have ht : t = resetAll s := by simpa [step] using hstep.symm
    subst ht
    exact ⟨defaultLimitingReactant, [], rfl, by decide⟩

theorem reachable_run (s t : AppState) (ops : List Op) (hs : Reachable s)
    (hrun : run s ops = some t) : Reachable t := by
  induction ops generalizing s with
  | nil =>
    have : s = t := by simpa [run] using hrun
    exact this ▸ hs
  | cons op ops ih =>
    simp only [run] at hrun
    cases hstep : step s op with
    | none => simp [hstep] at hrun
    | some u =>
      rw [hstep] at hrun
      exact ih u (Reachable.next op hs hstep) hrun

theorem uiStep_preserves_index (s t : AppState) (op : UiOp)
    (hlt : s.editingIndex < s.compounds.length) (hstep : uiStep s op = some t) :
    t.editingIndex < t.compounds.length := by
  cases op with
  | selectRow i =>
    simp only [uiStep, rowOnClick] at hstep
    split_ifs at hstep with hi
    have ht : t = setEditingIndex s i := by simpa using hstep.symm
    subst ht
    exact hi
  | control op =>
    cases op with
    | inputChange index field value =>
      obtain ⟨c, _, rfl⟩ := handleInputChange_eq_some s t index field value hstep
      simpa using hlt
    | selectFromDb d =>
      obtain ⟨c, _, rfl⟩ := handleSelectFromDb_eq_some s t d hstep
      simpa using hlt
    | add =>
      obtain ⟨lr, rest, hs⟩ : ∃ lr rest, s.compounds = lr :: rest := by
        cases hcs : s.compounds with
        | nil => rw [hcs] at hlt; exact absurd hlt (Nat.not_lt_zero _)
        | cons lr rest => exact ⟨lr, rest, rfl⟩
      simp only [uiStep, step, addCompound_cons s lr rest hs] at hstep
      split_ifs at hstep
      · have ht : t = s := by simpa using hstep.symm
        subst ht
        exact hlt
      · have ht : t =
            { compounds := s.compounds ++ [emptyCompound],
              editingIndex := s.compounds.length,
              showTable := false } := by
          simpa using hstep.symm
        subst ht
        simp
    | reset =>
      have ht : t = resetAll s := by simpa [uiStep, step] using hstep.symm
      subst ht
      exact Nat.zero_lt_one

theorem uiReachable_run (s t : AppState) (ops : List UiOp) (hs : UiReachable s)
    (hrun : uiRun s ops = some t) : UiReachable t := by
  induction ops generalizing s with
  | nil =>
    have : s = t := by simpa [uiRun] using hrun
    exact this ▸ hs
  | cons op ops ih =>
    simp only [uiRun] at hrun
    cases hstep : uiStep s op with
    | none => simp [hstep] at hrun
    | some u =>
      rw [hstep] at hrun
      exact ih u (UiReachable.next op hs hstep) hrun

/-! ## The engine: moles -/

/-- C3.  When the first record's molecular weight or weight is blank or coerces to 0,
`results` has one row per input row and every row has empty `moles`, `calculatedWeight`
and `calculatedVolume`, whatever the other fields are. -/
theorem blank_limiting_all_empty (lr : Compound) (rest : List Compound)
    (h : truthy lr.mw = false ∨ truthy lr.weight = false ∨
      parseNumber lr.mw = 0 ∨ parseNumber lr.weight = 0) :
    (results (lr :: rest)).length = (lr :: rest).length ∧
    ∀ r ∈ results (lr :: rest),
      r.moles = "" ∧ r.calculatedWeight = "" ∧ r.calculatedVolume = "" := by
  have hz : limitingMoles lr = 0 := by
    rcases h with h | h | h | h
    · exact limitingMoles_of_blank lr (Or.inl h)
    · exact limitingMoles_of_blank lr (Or.inr h)
    · exact limitingMoles_of_zero lr (Or.inl h)
    · exact limitingMoles_of_zero lr (Or.inr h)
  rw [results_cons]
  refine ⟨List.length_map _ _, ?_⟩
  intro r hr
  obtain ⟨c, _, rfl⟩ := List.mem_map.mp hr
  rw [computedResult_of_rowMoles_eq_zero lr c (rowMoles_of_limitingMoles_eq_zero lr c hz)]
  exact ⟨rfl, rfl, rfl⟩

/-- Concrete instance of `blank_limiting_all_empty`: the default limiting reactant with a
density, followed by a fully filled-in row. -/
theorem blank_limiting_all_empty_witness :
    truthy lrBlankDense.mw = false ∧
    (results [lrBlankDense, rowB]).length = [lrBlankDense, rowB].length ∧
    ∀ r ∈ results [lrBlankDense, rowB],
      r.moles = "" ∧ r.calculatedWeight = "" ∧ r.calculatedVolume = "" :=
  ⟨by decide, blank_limiting_all_empty lrBlankDense [rowB] (Or.inl (by decide))⟩

/-! ## The engine: weight and volume -/

set_option maxRecDepth 100000 in
/-- C7.  Entering molecular weight 100 and weight 500 (unit `mg`, `eq` left at its
default `1.0`) for the limiting reactant, adding a row with `addCompound` and entering
`mw = 50`, `eq = 2` for it gives the list `[lrExample, rowB]`, whose second row has no
unit property.  On that list `results` yields moles 0.005 for row 0, moles 0.01 for row
B and calculated weight 500 (mg) for row B. -/
theorem scenario_limiting_and_compound_B :
    (run initialState scenarioOps).map (fun s => s.compounds) = some [lrExample, rowB] ∧
    lrExample.unit = some "mg" ∧ lrExample.eq = some "1.0" ∧ rowB.unit = none ∧
    rowMoles lrExample lrExample = 5 / 1000 ∧
    rowMoles lrExample rowB = 1 / 100 ∧
    calculatedWeight lrExample rowB = 500 ∧
    (results [lrExample, rowB]).map (fun r => (r.moles, r.calculatedWeight)) =
      [("0.005000", "500.0000"), ("0.010000", "500.0000")] := by
  with_unfolding_all decide

/-! ## The controller -/

/-- C8.  On a state whose list has a first row, `addCompound` is rejected (the alert is
raised) exactly when that row's molecular weight or weight is blank; then the whole state
(list, `editingIndex`, `showTable`) is returned unchanged.  Otherwise no alert is raised
and the new list is the old list with `emptyCompound` appended: one more row, every
existing row unchanged and at the same index. -/
theorem addCompound_spec (s : AppState) (lr : Compound) (rest : List Compound)
    (hs : s.compounds = lr :: rest) :
    ((addCompound s).map Prod.snd = some (some addCompoundAlert) ↔
      (truthy lr.mw = false ∨ truthy lr.weight = false)) ∧
    (truthy lr.mw = false ∨ truthy lr.weight = false →
      addCompound s = some (s, some addCompoundAlert)) ∧
    (truthy lr.mw = true ∧ truthy lr.weight = true →
      ∃ t, addCompound s = some (t, none) ∧
        t.compounds = s.compounds ++ [emptyCompound] ∧
        t.compounds.length = s.compounds.length + 1 ∧
        (∀ i, i < s.compounds.length → t.compounds[i]? = s.compounds[i]?) ∧
        t.editingIndex = s.compounds.length ∧ t.showTable = false) := by
  rw [addCompound_cons s lr rest hs]
  by_cases hb : truthy lr.mw = false ∨ truthy lr.weight = false
  · have hcond : (!truthy lr.mw || !truthy lr.weight) = true := by
      rcases hb with h | h <;> simp [h]
    rw [if_pos hcond]
    refine ⟨⟨fun _ => hb, fun _ => rfl⟩, fun _ => rfl, ?_⟩
    rintro ⟨h1, h2⟩
    rcases hb with h | h
    · rw [h1] at h; cases h
    · rw [h2] at h; cases h
  · have h1 : truthy lr.mw = true := by
      cases hm : truthy lr.mw with
      | false => exact absurd (Or.inl hm) hb
      | true => rfl
    have h2 : truthy lr.weight = true := by
      cases hm : truthy lr.weight with
      | false => exact absurd (Or.inr hm) hb
      | true => rfl
    have hcond : ¬ (!truthy lr.mw || !truthy lr.weight) = true := by simp [h1, h2]
    rw [if_neg hcond]
    refine ⟨⟨fun h => ?_, fun h => absurd h hb⟩, fun h => absurd h hb, fun _ => ?_⟩
    · simp at h
    · refine ⟨_, rfl, rfl, by simp, ?_, rfl, rfl⟩
      intro i hi
      exact List.getElem?_append_left hi

/-- Concrete instances of `addCompound_spec`: the initial state, whose limiting reactant
is blank, is returned unchanged with the alert; a state with a complete limiting reactant
gets one empty row appended. -/
theorem addCompound_spec_witness :
    (initialState.compounds = defaultLimitingReactant :: [] ∧
      truthy defaultLimitingReactant.mw = false ∧
      addCompound initialState = some (initialState, some addCompoundAlert)) ∧
    (readyState.compounds = lrExample :: [] ∧
      truthy lrExample.mw = true ∧ truthy lrExample.weight = true ∧
      ∃ t, addCompound readyState = some (t, none) ∧
        t.compounds = readyState.compounds ++ [emptyCompound] ∧
        t.compounds.length = readyState.compounds.length + 1 ∧
        (∀ i, i < readyState.compounds.length → t.compounds[i]? = readyState.compounds[i]?) ∧
        t.editingIndex = readyState.compounds.length ∧ t.showTable = false) :=
  ⟨⟨rfl, by decide,
      (addCompound_spec initialState defaultLimitingReactant [] rfl).2.1 (Or.inl (by decide))⟩,
    ⟨rfl, by decide, by decide,
      (addCompound_spec readyState lrExample [] rfl).2.2 ⟨by decide, by decide⟩⟩⟩

/-- C9.  For every controller state `resetAll` yields a list of exactly one row, the
default limiting-reactant record (name `Limiting Reactant`, `mw` empty, `weight` empty,
unit `mg`, `eq` `1.0`, density empty), which is the list of the initial state; the whole
state is the initial state, and `resetAll` is idempotent. -/
theorem resetAll_spec (s : AppState) :
    (resetAll s).compounds =
      [{ name := some "Limiting Reactant", mw := some "", weight := some "",
         unit := some "mg", eq := some "1.0", density := some "", moles := none }] ∧
    (resetAll s).compounds.length = 1 ∧
    (resetAll s).compounds = initialState.compounds ∧
    resetAll s = initialState ∧
    resetAll (resetAll s) = resetAll s :=
  ⟨rfl, rfl, rfl, rfl, rfl⟩

/-- C10.  In every reachable state the list is non-empty and its row 0 carries the unit
property.  `handleInputChange` and `handleSelectFromDb` keep the number of rows and leave
every row other than the edited one identical at its index, the edited row staying at
its index; `addCompound` returns the list unchanged or with one row appended after the
last row.  So only `resetAll` removes rows. -/
theorem reachable_invariant (s : AppState) (h : Reachable s) :
    (∃ lr rest, s.compounds = lr :: rest ∧ lr.unit ≠ none) ∧
    (∀ index field value t, handleInputChange s index field value = some t →
      t.compounds.length = s.compounds.length ∧
      (∀ i, i ≠ index → t.compounds[i]? = s.compounds[i]?) ∧
      ∃ c, s.compounds[index]? = some c ∧
        t.compounds[index]? = some (c.setField field value)) ∧
    (∀ d t, handleSelectFromDb s d = some t →
      t.compounds.length = s.compounds.length ∧
      (∀ i, i ≠ s.editingIndex → t.compounds[i]? = s.compounds[i]?) ∧
      ∃ c, s.compounds[s.editingIndex]? = some c ∧
        t.compounds[s.editingIndex]? =
          some { c with name := d.name, mw := d.mw, density := d.density }) ∧
    (∃ t a, addCompound s = some (t, a) ∧
      (t.compounds = s.compounds ∨ t.compounds = s.compounds ++ [emptyCompound])) ∧
    (∀ op t, step s op = some t → op ≠ Op.reset →
      s.compounds.length ≤ t.compounds.length ∧
      ∀ i, i < s.compounds.length → i < t.compounds.length) := by
  have hinv : ∃ lr rest, s.compounds = lr :: rest ∧ lr.unit ≠ none := by
    induction h with
    | init => exact ⟨defaultLimitingReactant, [], rfl, by decide⟩
    | next op _ hstep ih => exact step_preserves_head _ _ op ih hstep
  have hinput : ∀ index field value t, handleInputChange s index field value = some t →
      t.compounds.length = s.compounds.length ∧
      (∀ i, i ≠ index → t.compounds[i]? = s.compounds[i]?) ∧
      ∃ c, s.compounds[index]? = some c ∧
        t.compounds[index]? = some (c.setField field value) := by
    intro index field value t ht
    obtain ⟨c, hc, rfl⟩ := handleInputChange_eq_some s t index field value ht
    have hlt : index < s.compounds.length := (List.getElem?_eq_some_iff.mp hc).1
    refine ⟨by simp, ?_, c, hc, by simp [List.getElem?_set, hlt]⟩
    intro i hi
    simp [List.getElem?_set, Ne.symm hi]
  have hselect : ∀ d t, handleSelectFromDb s d = some t →
      t.compounds.length = s.compounds.length ∧
      (∀ i, i ≠ s.editingIndex → t.compounds[i]? = s.compounds[i]?) ∧
      ∃ c, s.compounds[s.editingIndex]? = some c ∧
        t.compounds[s.editingIndex]? =
          some { c with name := d.name, mw := d.mw, density := d.density } := by
    intro d t ht
    obtain ⟨c, hc, rfl⟩ := handleSelectFromDb_eq_some s t d ht
    have hlt : s.editingIndex < s.compounds.length := (List.getElem?_eq_some_iff.mp hc).1
    refine ⟨by simp, ?_, c, hc, by simp [List.getElem?_set, hlt]⟩
    intro i hi
    simp [List.getElem?_set, Ne.symm hi]
  have hadd : ∃ t a, addCompound s = some (t, a) ∧
      (t.compounds = s.compounds ∨ t.compounds = s.compounds ++ [emptyCompound]) := by
    obtain ⟨lr, rest, hs, _⟩ := hinv
    rw [addCompound_cons s lr rest hs]
    split_ifs
    · exact ⟨_, _, rfl, Or.inl rfl⟩
    · exact ⟨_, _, rfl, Or.inr rfl⟩
  refine ⟨hinv, hinput, hselect, hadd, ?_⟩
  intro op t hstep hop
  have hle : s.compounds.length ≤ t.compounds.length := by
    cases op with
    | inputChange index field value => exact le_of_eq (hinput index field value t hstep).1.symm
    | selectFromDb d => exact le_of_eq (hselect d t hstep).1.symm
    | add =>
      obtain ⟨u, a, hu, hcase⟩ := hadd
      simp only [step, hu, Option.map_some', Option.some.injEq] at hstep
      subst hstep
      rcases hcase with hc | hc <;> simp [hc]
    | reset => exact absurd rfl hop
  exact ⟨hle, fun i hi => lt_of_lt_of_le hi hle⟩

/-- Concrete instance of `reachable_invariant`: the state reached by `scenarioOps`. -/
theorem reachable_invariant_witness :
    Reachable scenarioState ∧
    ∃ lr rest, scenarioState.compounds = lr :: rest ∧ lr.unit ≠ none :=
  ⟨reachable_run initialState scenarioState scenarioOps Reachable.init (by decide),
    (reachable_invariant scenarioState
      (reachable_run initialState scenarioState scenarioOps Reachable.init (by decide))).1⟩

/-! ## The compound registry -/

/-- C11.  `handleAdd` appends the pending entry at the end of the registry list exactly
when its name is non-empty and at least one of its molecular weight and density is
non-empty.  In that case the earlier entries keep their values and positions, nothing is
deduplicated, and the pending entry is reset to blanks; otherwise the registry list and
the pending entry are returned unchanged. -/
theorem handleAdd_spec (s : DbState) :
    ((handleAdd s).dbCompounds = s.dbCompounds ++ [s.newCompound] ↔
      (truthy s.newCompound.name = true ∧
        (truthy s.newCompound.mw = true ∨ truthy s.newCompound.density = true))) ∧
    (truthy s.newCompound.name = true ∧
        (truthy s.newCompound.mw = true ∨ truthy s.newCompound.density = true) →
      handleAdd s =
        { dbCompounds := s.dbCompounds ++ [s.newCompound], newCompound := blankDbCompound } ∧
      (handleAdd s).dbCompounds.length = s.dbCompounds.length + 1 ∧
      ∀ i, i < s.dbCompounds.length → (handleAdd s).dbCompounds[i]? = s.dbCompounds[i]?) ∧
    (¬ (truthy s.newCompound.name = true ∧
        (truthy s.newCompound.mw = true ∨ truthy s.newCompound.density = true)) →
      handleAdd s = s) := by
  by_cases hcond : truthy s.newCompound.name = true ∧
      (truthy s.newCompound.mw = true ∨ truthy s.newCompound.density = true)
  · have hb : (truthy s.newCompound.name &&
        (truthy s.newCompound.mw || truthy s.newCompound.density)) = true := by
      simpa using hcond
    have hadd : handleAdd s =
        { dbCompounds := s.dbCompounds ++ [s.newCompound], newCompound := blankDbCompound } := by
      unfold handleAdd
      rw [if_pos hb]
    refine ⟨⟨fun _ => hcond, fun _ => by rw [hadd]⟩, fun _ => ⟨hadd, ?_, ?_⟩,
      fun hn => absurd hcond hn⟩
    · rw [hadd]; simp
    · intro i hi
      rw [hadd]
      exact List.getElem?_append_left hi
  · have hb : ¬ (truthy s.newCompound.name &&
        (truthy s.newCompound.mw || truthy s.newCompound.density)) = true := by
      simpa using hcond
    have hsame : handleAdd s = s := by
      unfold handleAdd
      rw [if_neg hb]
    refine ⟨⟨fun h => ?_, fun h => absurd h hcond⟩, fun h => absurd h hcond, fun _ => hsame⟩
    rw [hsame] at h
    have hlen := congrArg List.length h
    simp at hlen

/-- Concrete instance of `handleAdd_spec`: an entry equal to one already saved is
appended again. -/
theorem handleAdd_spec_witness :
    (truthy duplicateDbState.newCompound.name = true ∧
      (truthy duplicateDbState.newCompound.mw = true ∨
        truthy duplicateDbState.newCompound.density = true)) ∧
    handleAdd duplicateDbState =
      { dbCompounds := [ethanolEntry, ethanolEntry], newCompound := blankDbCompound } :=
  ⟨by decide, ((handleAdd_spec duplicateDbState).2.1 (by decide)).1⟩

/-! ## The exporter -/

set_option maxRecDepth 100000 in
/-- C12 fails on the program.  After the scenario operations the second row, appended by
`addCompound`, has no unit property while the limiting reactant's unit is `mg`; both rows
have a calculated weight, and the exported `Weight` cells are `500.0000 mg` for row 0 but
`500.0000 undefined` for the appended row.  In general the cell of a row with a calculated
weight is that weight followed by the interpolation of the row's own unit property. -/
theorem export_weight_of_added_row :
    (run initialState scenarioOps).map (fun s => s.compounds) = some [lrExample, rowB] ∧
    lrExample.unit = some "mg" ∧ rowB.unit = none ∧
    (results [lrExample, rowB]).map (fun r => r.calculatedWeight) = ["500.0000", "500.0000"] ∧
    (dataToExport (results [lrExample, rowB])).map (fun r => r.weight) =
      ["500.0000 mg", "500.0000 undefined"] ∧
    (∀ (rs : List Result) (i : Nat) (r : Result), rs[i]? = some r → r.calculatedWeight ≠ "" →
      (dataToExport rs)[i]?.map (fun e => e.weight) =
        some (r.calculatedWeight ++ " " ++ interpolate r.unit)) := by
  refine ⟨by decide, rfl, rfl, by with_unfolding_all decide, by with_unfolding_all decide, ?_⟩
  intro rs i r hr hne
  simp [dataToExport, List.getElem?_mapIdx, hr, exportRow, exportWeight, hne]

/-! ## The G1 variant -/

set_option maxRecDepth 100000 in
/-- C13 fails on the G1 program.  The list `[lrExample, rowB]` is reached by field edits
and `addCompound`; row 0 has unit `mg` and the appended row has no unit property.  For the
appended row `gramsNeeded = 0.5`, so the weight in the limiting reactant's unit is 500, but
G1 computes `calculatedWeight = 0.5` and outputs `0.50`, because it tests the row's own
unit.  In general G1 leaves the weight in grams for every row whose own unit is not `mg`. -/
theorem g1_calculatedWeight_of_added_row :
    (G1.run G1.initialState G1.scenarioOps).map (fun s => s.compounds) =
      some [lrExample, rowB] ∧
    lrExample.unit = some "mg" ∧ rowB.unit = none ∧
    G1.calculatedWeightInGrams lrExample rowB = 1 / 2 ∧
    G1.calculatedWeight lrExample rowB = 1 / 2 ∧
    (G1.results [lrExample, rowB]).map (fun r => r.calculatedWeight) = ["500.00", "0.50"] ∧
    (∀ lr c : Compound, c.unit ≠ some "mg" →
      G1.calculatedWeight lr c = G1.calculatedWeightInGrams lr c) := by
  refine ⟨by decide, rfl, rfl, by with_unfolding_all decide, by with_unfolding_all decide,
    by with_unfolding_all decide, ?_⟩
  intro lr c hu
  unfold G1.calculatedWeight
  rw [if_neg hu]

/-! ## Row selection -/

/-- C14.  In every state reachable from the initial state by clicks on rendered rows,
`handleInputChange`, `handleSelectFromDb`, `addCompound` and `resetAll`, `editingIndex`
is strictly less than the number of rows; hence `handleSelectFromDb` does not throw and
overwrites the name, molecular weight and density of an existing row, keeping the number
of rows. -/
theorem editingIndex_in_range (s : AppState) (h : UiReachable s) :
    s.editingIndex < s.compounds.length ∧
    ∀ d : DbCompound, ∃ c t,
      s.compounds[s.editingIndex]? = some c ∧
      handleSelectFromDb s d = some t ∧
      t.compounds.length = s.compounds.length ∧
      t.compounds[s.editingIndex]? =
        some { c with name := d.name, mw := d.mw, density := d.density } := by
  have hlt : s.editingIndex < s.compounds.length := by
    induction h with
    | init => decide
    | next op _ hstep ih => exact uiStep_preserves_index _ _ op ih hstep
  refine ⟨hlt, fun d => ?_⟩
  obtain ⟨c, hc⟩ : ∃ c, s.compounds[s.editingIndex]? = some c :=
    ⟨s.compounds[s.editingIndex], List.getElem?_eq_getElem hlt⟩
  refine ⟨c, { s with
                compounds := s.compounds.set s.editingIndex
                  { c with name := d.name, mw := d.mw, density := d.density } },
    hc, ?_, ?_, ?_⟩
  · unfold handleSelectFromDb
    rw [hc]
  · simp
  · simp [List.getElem?_set, hlt]

/-- Concrete instance of `editingIndex_in_range`: the state reached by `selectionOps`. -/
theorem editingIndex_in_range_witness :
    UiReachable selectionState ∧ selectionState.editingIndex < selectionState.compounds.length :=
  ⟨uiReachable_run initialState selectionState selectionOps UiReachable.init (by decide),
    (editingIndex_in_range selectionState
      (uiReachable_run initialState selectionState selectionOps UiReachable.init
        (by decide))).1⟩

end MoleCal
